import Mathlib

/-!
Shallow embedding of the finance-dashboard pipeline (`finance_analysis.py`):
schema validation (`load_data`), monthly aggregation (`monthly_trends`),
category aggregation (`category_breakdown`), top-N spending rankings and the
cumulative-net series (`save_charts` / `write_summary`).

Amounts are modelled as exact rationals (the signed decimals of the data model),
dates as (year, month, day) triples of naturals, and a month bucket as the
natural number `year * 12 + month`, which orders month buckets
chronologically.  A missing category cell (pandas NaN) is modelled as
`none`.  The pandas sorts are modelled by insertion sort; the quicksort tie order of the library among equal keys is not modelled.
-/

namespace FinanceDashboard

/-- A calendar date as parsed by the loader. -/
structure Date where
  year : Nat
  month : Nat
  day : Nat
deriving DecidableEq, Repr

/-- One transaction row of the validated table.  `category` is `none` when
the category cell is missing (pandas NaN). -/
structure Row where
  date : Date
  description : String
  amount : ℚ
  category : Option String
deriving DecidableEq, Repr

/-- Month bucket of a date (`df["date"].dt.to_period("M")`), encoded so that
the natural order of the encoding is chronological order of month buckets. -/
def monthKey (d : Date) : Nat := d.year * 12 + d.month

/-- The derived `month` column of a row. -/
def Row.monthOf (r : Row) : Nat := monthKey r.date

/-- The derived `type` column:
`np.where(df["amount"] >= 0, "income", "expense")`. -/
def rowType (r : Row) : String := if 0 ≤ r.amount then "income" else "expense"

/-- The required column set of `load_data`. -/
def requiredColumns : List String := ["date", "description", "amount", "category"]

/-- The set `required - set(df.columns.str.lower())`, as the sublist of
`requiredColumns` not present among the lower-cased input column names. -/
def missingColumns (cols : List String) : List String :=
  requiredColumns.filter (fun c => decide (c ∉ cols.map String.toLower))

/-- Schema validation of `load_data`: raise (`Except.error`) with the missing
set when any required column is absent, otherwise proceed. -/
def loadSchema (cols : List String) : Except (List String) Unit :=
  if missingColumns cols = [] then Except.ok () else Except.error (missingColumns cols)

/-- One entry of the MonthlySeries produced by `monthly_trends`. -/
structure MonthlyEntry where
  month : Nat
  income : ℚ
  expense : ℚ
  net : ℚ
deriving DecidableEq, Repr

/-- Sum of the income amounts of one month bucket (the `income` cell of the
pivot table, `fill_value=0` when the group is empty). -/
def incomeSum (rows : List Row) (m : Nat) : ℚ :=
  ((rows.filter fun r => r.monthOf == m && rowType r == "income").map Row.amount).sum

/-- Sum of the expense amounts of one month bucket (the `expense` cell of the
pivot table, `fill_value=0` when the group is empty). -/
def expenseSum (rows : List Row) (m : Nat) : ℚ :=
  ((rows.filter fun r => r.monthOf == m && rowType r == "expense").map Row.amount).sum

/-- The distinct month buckets of the table, ascending (the sorted index of
the pivot table after `sort_index()`). -/
def monthsOf (rows : List Row) : List Nat :=
  List.insertionSort (· ≤ ·) (rows.map Row.monthOf).dedup

/-- `monthly_trends`: group by (month, type), sum amounts, pivot with zero
fill, sort by month, and add `net = income + expense`. -/
def monthly_trends (rows : List Row) : List MonthlyEntry :=
  (monthsOf rows).map fun m =>
    { month := m
      income := incomeSum rows m
      expense := expenseSum rows m
      net := incomeSum rows m + expenseSum rows m }

/-- The expense rows: `df[df["amount"] < 0]`. -/
def expenseRows (rows : List Row) : List Row :=
  rows.filter fun r => decide (r.amount < 0)

/-- Sum of the amounts of the expense rows carrying category `c`. -/
def catSum (rows : List Row) (c : String) : ℚ :=
  (((expenseRows rows).filter fun r => r.category == some c).map Row.amount).sum

/-- The distinct categories among the expense rows; rows with a missing
category are dropped, as the pandas group-by drops NaN keys. -/
def categoriesOf (rows : List Row) : List String :=
  List.insertionSort (· ≤ ·) ((expenseRows rows).filterMap Row.category).dedup

/-- Ordering of CategorySeries entries by ascending signed value
(`sort_values()`). -/
def valueAsc (a b : String × ℚ) : Prop := a.2 ≤ b.2

instance : DecidableRel valueAsc := fun a b => inferInstanceAs (Decidable (a.2 ≤ b.2))

instance : IsTotal (String × ℚ) valueAsc := ⟨fun a b => le_total a.2 b.2⟩

instance : IsTrans (String × ℚ) valueAsc := ⟨fun _ _ _ h h2 => le_trans h h2⟩

/-- `category_breakdown`: filter to `amount < 0`, group by category, sum,
and sort ascending by the signed sums. -/
def category_breakdown (rows : List Row) : List (String × ℚ) :=
  List.insertionSort valueAsc ((categoriesOf rows).map fun c => (c, catSum rows c))

/-- Ordering of entries by descending signed value
(`sort_values(ascending=False)`). -/
def valueDesc (a b : String × ℚ) : Prop := b.2 ≤ a.2

instance : DecidableRel valueDesc := fun a b => inferInstanceAs (Decidable (b.2 ≤ a.2))

instance : IsTotal (String × ℚ) valueDesc := ⟨fun a b => le_total b.2 a.2⟩

instance : IsTrans (String × ℚ) valueDesc := ⟨fun _ _ _ h h2 => le_trans h2 h⟩

/-- `by_cat.abs().sort_values(ascending=False).head(n) * -1`: the top-n
spending categories by absolute value, re-negated. -/
def topSpending (n : Nat) (byCat : List (String × ℚ)) : List (String × ℚ) :=
  ((List.insertionSort valueDesc (byCat.map fun p => (p.1, |p.2|))).take n).map
    fun p => (p.1, -p.2)

/-- Rounding to two decimal places (`.round(2)`).  Modelled with the
half-up integer rounding of `round`; no claim exercises an exact tie. -/
def round2 (x : ℚ) : ℚ := ((round (x * 100) : ℤ) : ℚ) / 100

/-- The `top5` series of `write_summary`:
`(by_cat.abs().sort_values(ascending=False).head(5) * -1).round(2)`. -/
def top5 (byCat : List (String × ℚ)) : List (String × ℚ) :=
  (topSpending 5 byCat).map fun p => (p.1, round2 p.2)

/-- `monthly["income"].sum()`. -/
def totalIncome (monthly : List MonthlyEntry) : ℚ :=
  (monthly.map MonthlyEntry.income).sum

/-- `monthly["expense"].sum()`. -/
def totalExpense (monthly : List MonthlyEntry) : ℚ :=
  (monthly.map MonthlyEntry.expense).sum

/-- `monthly["net"].sum()`. -/
def totalNet (monthly : List MonthlyEntry) : ℚ :=
  (monthly.map MonthlyEntry.net).sum

/-- Running prefix sums starting from an accumulator. -/
def cumsumFrom (acc : ℚ) : List ℚ → List ℚ
  | [] => []
  | x :: xs => (acc + x) :: cumsumFrom (acc + x) xs

/-- `monthly["net"].cumsum()` on a plain list of values. -/
def cumsum (l : List ℚ) : List ℚ := cumsumFrom 0 l

/-- The cumulative net cashflow series of `save_charts`. -/
def cumulativeNet (monthly : List MonthlyEntry) : List ℚ :=
  cumsum (monthly.map MonthlyEntry.net)

/-- The three-row example table of the spec: category of the income row is a
blank cell, hence `none`. -/
def exampleRows : List Row :=
  [ { date := ⟨2024, 1, 5⟩, description := "", amount := -50, category := some "Food" }
  , { date := ⟨2024, 1, 10⟩, description := "", amount := 2000, category := none }
  , { date := ⟨2024, 2, 1⟩, description := "", amount := -30, category := some "Food" } ]

/-- An expense row with a missing category cell. -/
def nullCatRow : Row :=
  { date := ⟨2024, 1, 5⟩, description := "rent", amount := -50, category := none }

/-- A one-row table whose single expense row has no category. -/
def nullCatRows : List Row := [nullCatRow]

end FinanceDashboard

namespace FinanceDashboard

/-- C8: the derived type column equals "income" iff the amount is
non-negative, equals "expense" iff it is negative, and never both. -/
theorem C8_sign_invariant (r : Row) :
    (rowType r = "income" ↔ 0 ≤ r.amount) ∧
    (rowType r = "expense" ↔ r.amount < 0) ∧
    ¬ (rowType r = "income" ∧ rowType r = "expense") := by
  by_cases h : 0 ≤ r.amount <;>
    simp [rowType, h, not_le.symm, lt_iff_not_le]

/-- Evaluation of the MonthlySeries on the example table; the month buckets
are `2024 * 12 + 1` and `2024 * 12 + 2`. -/
theorem monthly_trends_example :
    monthly_trends exampleRows =
      [ { month := 24289, income := 2000, expense := -50, net := 1950 }
      , { month := 24290, income := 0, expense := -30, net := -30 } ] := by
  norm_num +decide [monthly_trends, monthsOf, incomeSum, expenseSum, rowType, Row.monthOf,
    monthKey, exampleRows, List.dedup_cons_of_mem, List.dedup_cons_of_not_mem,
    List.filter_cons, List.filter_nil]

/-- Evaluation of the CategorySeries on the example table. -/
theorem category_breakdown_example :
    category_breakdown exampleRows = [("Food", -80)] := by
  norm_num +decide [category_breakdown, categoriesOf, catSum, expenseRows, exampleRows,
    Row.monthOf, monthKey, List.dedup_cons_of_mem, List.dedup_cons_of_not_mem,
    List.filter_cons, List.filter_nil]

/-- Evaluation of the top-5 ranking on the example table. -/
theorem top5_example : top5 (category_breakdown exampleRows) = [("Food", -80)] := by
  rw [top5, topSpending, category_breakdown_example]
  norm_num [valueDesc, round2]
  rw [show ((-8000 : ℚ)) = ((-8000 : ℤ) : ℚ) by norm_num, round_intCast]
  norm_num

/-- C1: on the three-row example of the spec the pipeline produces exactly the
stated MonthlySeries, CategorySeries, totals, top5 and cumulative series. -/
theorem C1_pipeline_example :
    monthly_trends exampleRows =
      [ { month := monthKey ⟨2024, 1, 5⟩, income := 2000, expense := -50, net := 1950 }
      , { month := monthKey ⟨2024, 2, 1⟩, income := 0, expense := -30, net := -30 } ] ∧
    category_breakdown exampleRows = [("Food", -80)] ∧
    totalIncome (monthly_trends exampleRows) = 2000 ∧
    totalExpense (monthly_trends exampleRows) = -80 ∧
    totalNet (monthly_trends exampleRows) = 1920 ∧
    top5 (category_breakdown exampleRows) = [("Food", -80)] ∧
    cumulativeNet (monthly_trends exampleRows) = [1950, 1920] := by
  refine ⟨?_, category_breakdown_example, ?_, ?_, ?_, top5_example, ?_⟩
  · exact monthly_trends_example
  · rw [monthly_trends_example]; norm_num [totalIncome]
  · rw [monthly_trends_example]; norm_num [totalExpense]
  · rw [monthly_trends_example]; norm_num [totalNet]
  · rw [cumulativeNet, monthly_trends_example]; norm_num [cumsum, cumsumFrom]

/-- Sum of a pointwise-added map splits into two sums. -/
theorem sum_map_add {κ : Type} (l : List κ) (f g : κ → ℚ) :
    (l.map fun m => f m + g m).sum = (l.map f).sum + (l.map g).sum := by
  induction l with
  | nil => simp
  | cons a l ih => simp [ih]; ring

/-- C2: every MonthlySeries entry satisfies net = income + expense, and the
series totals satisfy total net = total income + total expense. -/
theorem C2_net_identity (rows : List Row) :
    (∀ e ∈ monthly_trends rows, e.net = e.income + e.expense) ∧
    totalNet (monthly_trends rows) =
      totalIncome (monthly_trends rows) + totalExpense (monthly_trends rows) := by
  constructor
  · intro e he
    simp only [monthly_trends, List.mem_map] at he
    obtain ⟨m, _, rfl⟩ := he
    rfl
  · simp only [totalNet, totalIncome, totalExpense, monthly_trends, List.map_map,
      Function.comp]
    exact sum_map_add (monthsOf rows) (incomeSum rows) (expenseSum rows)

/-- Witness for C2 on the example table. -/
theorem C2_net_identity_witness :
    ({ month := 24289, income := 2000, expense := -50, net := 1950 } : MonthlyEntry) ∈
      monthly_trends exampleRows ∧ (1950 : ℚ) = 2000 + -50 := by
  have hmem : ({ month := 24289, income := 2000, expense := -50, net := 1950 } :
      MonthlyEntry) ∈ monthly_trends exampleRows := by
    rw [monthly_trends_example]; exact List.mem_cons_self _ _
  exact ⟨hmem, (C2_net_identity exampleRows).1 _ hmem⟩

/-- Months of the series are the distinct month buckets of the table. -/
theorem mem_monthsOf {rows : List Row} {m : Nat} :
    m ∈ monthsOf rows ↔ ∃ r ∈ rows, r.monthOf = m := by
  unfold monthsOf
  rw [(List.perm_insertionSort _ _).mem_iff, List.mem_dedup, List.mem_map]

/-- The month list of the series is strictly increasing. -/
theorem monthsOf_sorted (rows : List Row) : List.Pairwise (· < ·) (monthsOf rows) := by
  have hs : List.Sorted (· ≤ ·) (monthsOf rows) := List.sorted_insertionSort _ _
  have hn : (monthsOf rows).Nodup :=
    ((List.perm_insertionSort _ _).nodup_iff).2 (List.nodup_dedup _)
  exact hs.lt_of_le hn

/-- C3: the MonthlySeries has exactly one entry per distinct month of the
table, in strictly ascending month order, and each entry carries the income
and expense group sums, which are 0 when the group is empty. -/
theorem C3_monthly_completeness (rows : List Row) :
    List.Pairwise (· < ·) ((monthly_trends rows).map MonthlyEntry.month) ∧
    (∀ m, m ∈ (monthly_trends rows).map MonthlyEntry.month ↔
      ∃ r ∈ rows, r.monthOf = m) ∧
    ∀ e ∈ monthly_trends rows,
      e.income = incomeSum rows e.month ∧ e.expense = expenseSum rows e.month ∧
      ((rows.filter fun r => r.monthOf == e.month && rowType r == "income") = [] →
        e.income = 0) ∧
      ((rows.filter fun r => r.monthOf == e.month && rowType r == "expense") = [] →
        e.expense = 0) := by
  have hmap : (monthly_trends rows).map MonthlyEntry.month = monthsOf rows := by
    simp [monthly_trends, List.map_map, Function.comp_def]
  refine ⟨hmap ▸ monthsOf_sorted rows, fun m => by rw [hmap]; exact mem_monthsOf, ?_⟩
  intro e he
  simp only [monthly_trends, List.mem_map] at he
  obtain ⟨m, _, rfl⟩ := he
  refine ⟨rfl, rfl, fun h => ?_, fun h => ?_⟩
  · simp [incomeSum, h]
  · simp [expenseSum, h]

/-- Witness for C3 on the example table. -/
theorem C3_monthly_completeness_witness :
    ({ month := 24289, income := 2000, expense := -50, net := 1950 } : MonthlyEntry) ∈
      monthly_trends exampleRows ∧
    (2000 : ℚ) = incomeSum exampleRows 24289 := by
  have hmem : ({ month := 24289, income := 2000, expense := -50, net := 1950 } :
      MonthlyEntry) ∈ monthly_trends exampleRows := by
    rw [monthly_trends_example]; exact List.mem_cons_self _ _
  exact ⟨hmem, ((C3_monthly_completeness exampleRows).2.2 _ hmem).1⟩

/-- Membership in the missing-column set. -/
theorem mem_missingColumns {cols : List String} {c : String} :
    c ∈ missingColumns cols ↔ c ∈ requiredColumns ∧ c ∉ cols.map String.toLower := by
  simp [missingColumns, List.mem_filter]

/-- C4: loading fails exactly when a required column is absent under
case-insensitive matching, the error names exactly the missing set, and no
partial result is returned in the failing case. -/
theorem C4_schema_validation (cols : List String) :
    (loadSchema cols = Except.ok () ↔ missingColumns cols = []) ∧
    (∀ m, loadSchema cols = Except.error m →
      m = missingColumns cols ∧ m ≠ [] ∧
      ∀ c, c ∈ m ↔ c ∈ requiredColumns ∧ c ∉ cols.map String.toLower) ∧
    ((∀ c ∈ requiredColumns, c ∈ cols.map String.toLower) →
      loadSchema cols = Except.ok ()) := by
  by_cases h : missingColumns cols = []
  · refine ⟨by simp [loadSchema, h], fun m hm => ?_, fun _ => by simp [loadSchema, h]⟩
    simp [loadSchema, h] at hm
  · refine ⟨by simp [loadSchema, h], fun m hm => ?_, fun hall => ?_⟩
    · simp only [loadSchema, if_neg h] at hm
      obtain rfl : missingColumns cols = m := Except.error.inj hm
      exact ⟨rfl, h, fun c => mem_missingColumns⟩
    · exfalso
      apply h
      simp only [missingColumns, List.filter_eq_nil_iff]
      intro c hc
      simp [hall c hc]

/-- Witness for C4: an input table with no columns at all misses all four. -/
theorem C4_schema_validation_witness :
    ["date", "description", "amount", "category"] = missingColumns [] ∧
    (["date", "description", "amount", "category"] : List String) ≠ [] := by
  have hload : loadSchema [] =
      Except.error ["date", "description", "amount", "category"] := by
    unfold loadSchema
    rw [if_neg (by decide)]
    congr 1
  have h := (C4_schema_validation []).2.1 ["date", "description", "amount", "category"] hload
  exact ⟨h.1, h.2.1⟩

/-- Running sums keep the length of the input series. -/
theorem cumsumFrom_length (acc : ℚ) (l : List ℚ) :
    (cumsumFrom acc l).length = l.length := by
  induction l generalizing acc with
  | nil => rfl
  | cons x xs ih => simp [cumsumFrom, ih]

/-- Each running-sum entry is the accumulator plus the prefix sum. -/
theorem cumsumFrom_getD (l : List ℚ) : ∀ (acc : ℚ) (i : Nat), i < l.length →
    (cumsumFrom acc l).getD i 0 = acc + (l.take (i + 1)).sum := by
  induction l with
  | nil => intro acc i h; simp at h
  | cons x xs ih =>
    intro acc i h
    cases i with
    | zero => simp [cumsumFrom]
    | succ j =>
      have hj : j < xs.length := by simpa using h
      simp only [cumsumFrom, List.getD_cons_succ, List.take_succ_cons, List.sum_cons]
      rw [ih (acc + x) j hj]
      ring

/-- A prefix sum grows by the entry at the new index. -/
theorem take_sum_step (l : List ℚ) : ∀ i, i < l.length →
    (l.take (i + 1)).sum = (l.take i).sum + l.getD i 0 := by
  induction l with
  | nil => intro i h; simp at h
  | cons x xs ih =>
    intro i h
    cases i with
    | zero => simp
    | succ j =>
      have hj : j < xs.length := by simpa using h
      simp only [List.take_succ_cons, List.sum_cons, List.getD_cons_succ]
      rw [ih j hj]
      ring

/-- C7: the cumulative net series is the running prefix sum of net, entry by
entry, and consecutive differences recover the net values. -/
theorem C7_cumulative_sum (monthly : List MonthlyEntry) :
    (cumulativeNet monthly).length = monthly.length ∧
    (∀ i, i < monthly.length →
      (cumulativeNet monthly).getD i 0 =
        ((monthly.map MonthlyEntry.net).take (i + 1)).sum) ∧
    (∀ i, 1 ≤ i → i < monthly.length →
      (cumulativeNet monthly).getD i 0 - (cumulativeNet monthly).getD (i - 1) 0 =
        (monthly.map MonthlyEntry.net).getD i 0) := by
  have hlen : (monthly.map MonthlyEntry.net).length = monthly.length :=
    List.length_map _ _
  refine ⟨?_, fun i hi => ?_, fun i h1 hi => ?_⟩
  · rw [cumulativeNet, cumsum, cumsumFrom_length, hlen]
  · rw [cumulativeNet, cumsum, cumsumFrom_getD _ 0 i (by rw [hlen]; exact hi)]
    ring
  · obtain ⟨j, rfl⟩ : ∃ j, i = j + 1 := ⟨i - 1, (Nat.succ_pred_eq_of_pos h1).symm⟩
    simp only [Nat.add_sub_cancel]
    rw [cumulativeNet, cumsum, cumsumFrom_getD _ 0 (j + 1) (by rw [hlen]; exact hi),
      cumsumFrom_getD _ 0 j (by rw [hlen]; omega),
      take_sum_step _ (j + 1) (by rw [hlen]; exact hi)]
    ring

/-- Witness for C7 on the example series: the second cumulative entry is the
sum of the first two net values. -/
theorem C7_cumulative_sum_witness :
    (cumulativeNet (monthly_trends exampleRows)).getD 1 0 =
      (((monthly_trends exampleRows).map MonthlyEntry.net).take 2).sum := by
  exact (C7_cumulative_sum (monthly_trends exampleRows)).2.1 1
    (by rw [monthly_trends_example]; norm_num)

/-- The month list of the series has no duplicates. -/
theorem monthsOf_nodup (rows : List Row) : (monthsOf rows).Nodup :=
  ((List.perm_insertionSort _ _).nodup_iff).2 (List.nodup_dedup _)

/-- The category list has no duplicates. -/
theorem categoriesOf_nodup (rows : List Row) : (categoriesOf rows).Nodup :=
  ((List.perm_insertionSort _ _).nodup_iff).2 (List.nodup_dedup _)

/-- A category occurs in the breakdown keys exactly when some expense row
carries it. -/
theorem mem_categoriesOf {rows : List Row} {c : String} :
    c ∈ categoriesOf rows ↔ ∃ r ∈ expenseRows rows, r.category = some c := by
  unfold categoriesOf
  rw [(List.perm_insertionSort _ _).mem_iff, List.mem_dedup, List.mem_filterMap]

/-- Expense rows have negative amounts. -/
theorem mem_expenseRows_neg {rows : List Row} {r : Row} (hr : r ∈ expenseRows rows) :
    r.amount < 0 := by
  have h := (List.mem_filter.1 hr).2
  simpa using h

/-- Summing an indicator over a duplicate-free key list containing the key
yields the tagged value. -/
theorem sum_indicator {κ : Type} [DecidableEq κ] :
    ∀ (keys : List κ), keys.Nodup → ∀ (a : κ), a ∈ keys → ∀ (v : ℚ),
      (keys.map fun c => if a = c then v else 0).sum = v := by
  intro keys
  induction keys with
  | nil => intro _ a ha; cases ha
  | cons k ks ih =>
    intro hnd a ha v
    rcases List.mem_cons.1 ha with rfl | hmem
    · simp only [List.map_cons, List.sum_cons, if_pos rfl]
      have hz : (ks.map fun c => if a = c then v else 0).sum = 0 := by
        apply List.sum_eq_zero
        intro x hx
        obtain ⟨c, hc, rfl⟩ := List.mem_map.1 hx
        have hne : a ≠ c := fun h => (List.nodup_cons.1 hnd).1 (h ▸ hc)
        simp [hne]
      simp [hz]
    · have hk : a ≠ k := fun h => (List.nodup_cons.1 hnd).1 (h ▸ hmem)
      simp only [List.map_cons, List.sum_cons, if_neg hk]
      rw [ih (List.nodup_cons.1 hnd).2 a hmem v]
      ring

/-- Group-by partition: summing the per-key group sums over a duplicate-free
key list covering every row recovers the sum over all rows. -/
theorem sum_partition {κ : Type} [BEq κ] [LawfulBEq κ] [DecidableEq κ] (k : Row → κ) :
    ∀ (l : List Row) (keys : List κ), keys.Nodup → (∀ r ∈ l, k r ∈ keys) →
      (keys.map fun c => ((l.filter fun r => k r == c).map Row.amount).sum).sum =
        (l.map Row.amount).sum := by
  intro l
  induction l with
  | nil => intro keys _ _; simp
  | cons r l ih =>
    intro keys hnd hcov
    have hcov2 : ∀ x ∈ l, k x ∈ keys := fun x hx => hcov x (List.mem_cons_of_mem _ hx)
    have hr : k r ∈ keys := hcov r (List.mem_cons_self _ _)
    have hsplit : ∀ c, (((r :: l).filter fun x => k x == c).map Row.amount).sum =
        (if k r = c then r.amount else 0) +
          ((l.filter fun x => k x == c).map Row.amount).sum := by
      intro c
      by_cases h : k r = c
      · simp [List.filter_cons, h]
      · simp [List.filter_cons, h]
    calc (keys.map fun c => (((r :: l).filter fun x => k x == c).map Row.amount).sum).sum
        = (keys.map fun c => (if k r = c then r.amount else 0) +
            ((l.filter fun x => k x == c).map Row.amount).sum).sum :=
          congrArg List.sum (List.map_congr_left fun c _ => hsplit c)
      _ = (keys.map fun c => if k r = c then r.amount else 0).sum +
          (keys.map fun c => ((l.filter fun x => k x == c).map Row.amount).sum).sum :=
          sum_map_add _ _ _
      _ = r.amount + (l.map Row.amount).sum := by
          rw [sum_indicator keys hnd _ hr, ih keys hnd hcov2]
      _ = ((r :: l).map Row.amount).sum := by simp

/-- Splitting a conjunctive filter into two nested filters. -/
theorem filter_and_split (p q : Row → Bool) (rows : List Row) :
    rows.filter (fun r => p r && q r) = (rows.filter q).filter p := by
  rw [List.filter_filter]

/-- The type-column test for "expense" agrees with the sign test. -/
theorem rowType_expense_eq (r : Row) :
    (rowType r == "expense") = decide (r.amount < 0) := by
  by_cases h : 0 ≤ r.amount
  · have h2 : ¬ r.amount < 0 := not_lt.2 h
    simp [rowType, h, h2]
  · have h2 : r.amount < 0 := not_le.1 h
    simp [rowType, h, h2]

/-- Filtering on the derived type column is filtering on the sign. -/
theorem filter_expense_eq (rows : List Row) :
    rows.filter (fun r => rowType r == "expense") = expenseRows rows :=
  List.filter_congr fun r _ => rowType_expense_eq r

/-- Total expense over the series is the sum over expense-typed rows. -/
theorem totalExpense_eq (rows : List Row) :
    totalExpense (monthly_trends rows) =
      ((rows.filter fun r => rowType r == "expense").map Row.amount).sum := by
  have h1 : totalExpense (monthly_trends rows) =
      ((monthsOf rows).map fun m => expenseSum rows m).sum := by
    simp [totalExpense, monthly_trends, List.map_map, Function.comp_def]
  have h2 : ∀ m, expenseSum rows m =
      (((rows.filter fun r => rowType r == "expense").filter
        fun r => r.monthOf == m).map Row.amount).sum := by
    intro m
    rw [expenseSum, filter_and_split]
  rw [h1]
  calc ((monthsOf rows).map fun m => expenseSum rows m).sum
      = ((monthsOf rows).map fun m => (((rows.filter fun r => rowType r == "expense").filter
          fun r => r.monthOf == m).map Row.amount).sum).sum :=
        congrArg List.sum (List.map_congr_left fun m _ => h2 m)
    _ = ((rows.filter fun r => rowType r == "expense").map Row.amount).sum := by
        apply sum_partition Row.monthOf
        · exact monthsOf_nodup rows
        · intro r hr
          exact mem_monthsOf.2 ⟨r, List.mem_of_mem_filter hr, rfl⟩

/-- When every expense row has a category, the CategorySeries values sum to
the sum over all expense rows. -/
theorem category_values_sum (rows : List Row)
    (h : ∀ r ∈ rows, r.amount < 0 → r.category ≠ none) :
    ((category_breakdown rows).map Prod.snd).sum =
      ((expenseRows rows).map Row.amount).sum := by
  have hperm : ((category_breakdown rows).map Prod.snd).Perm
      ((((categoriesOf rows).map fun c => (c, catSum rows c)).map (Prod.snd))) :=
    (List.perm_insertionSort _ _).map _
  rw [hperm.sum_eq, List.map_map]
  have hkeys : ((((categoriesOf rows).map some)).map fun oc =>
      (((expenseRows rows).filter fun r => r.category == oc).map Row.amount).sum).sum =
      ((expenseRows rows).map Row.amount).sum := by
    apply sum_partition Row.category
    · exact (categoriesOf_nodup rows).map (Option.some_injective _)
    · intro r hr
      have hneg : r.amount < 0 := mem_expenseRows_neg hr
      have hmem : r ∈ rows := List.mem_of_mem_filter hr
      rcases hc : r.category with _ | c
      · exact absurd hc (h r hmem hneg)
      · exact List.mem_map.2 ⟨c, mem_categoriesOf.2 ⟨r, hr, hc⟩, rfl⟩
  rw [← hkeys, List.map_map]
  exact congrArg List.sum (List.map_congr_left fun c _ => rfl)

/-- Evaluation of the breakdown on the null-category expense table: the
group-by drops the row, so the series is empty. -/
theorem category_breakdown_nullCat : category_breakdown nullCatRows = [] := by
  norm_num +decide [category_breakdown, categoriesOf, catSum, expenseRows, nullCatRows,
    nullCatRow, List.filter_cons, List.filter_nil]

/-- Evaluation of the MonthlySeries on the null-category expense table: the
expense still counts in its month. -/
theorem monthly_trends_nullCat :
    monthly_trends nullCatRows =
      [{ month := 24289, income := 0, expense := -50, net := -50 }] := by
  norm_num +decide [monthly_trends, monthsOf, incomeSum, expenseSum, rowType, Row.monthOf,
    monthKey, nullCatRows, nullCatRow, List.filter_cons, List.filter_nil]

/-- Counterexample to C5 as stated: with one expense row whose category cell
is missing, the CategorySeries values sum to 0, but the expense column sums
to -50. -/
theorem C5_category_filter_counterexample :
    ¬ ((category_breakdown nullCatRows).map Prod.snd).sum =
      totalExpense (monthly_trends nullCatRows) := by
  rw [category_breakdown_nullCat, monthly_trends_nullCat]
  norm_num [totalExpense]

/-- C5 amended: rows with non-negative amount never contribute to the
CategorySeries, and the sum of the CategorySeries values equals the expense
column sum provided every expense row has a non-null category. -/
theorem C5_category_filter_amended (rows : List Row) :
    category_breakdown rows = category_breakdown (expenseRows rows) ∧
    ((∀ r ∈ rows, r.amount < 0 → r.category ≠ none) →
      ((category_breakdown rows).map Prod.snd).sum =
        totalExpense (monthly_trends rows)) := by
  constructor
  · have hrows : expenseRows (expenseRows rows) = expenseRows rows := by
      rw [expenseRows, expenseRows, List.filter_filter]
      exact List.filter_congr fun r _ => Bool.and_self _
    simp only [category_breakdown, categoriesOf, catSum, hrows]
  · intro h
    rw [category_values_sum rows h, totalExpense_eq, filter_expense_eq]

/-- Witness for the amended C5 on the example table, where every expense row
carries a category. -/
theorem C5_category_filter_amended_witness :
    ((category_breakdown exampleRows).map Prod.snd).sum =
      totalExpense (monthly_trends exampleRows) := by
  apply (C5_category_filter_amended exampleRows).2
  intro r hr hneg
  unfold exampleRows at hr
  fin_cases hr <;> simp_all <;> norm_num at hneg

/-- A non-empty list of negative rationals sums to a negative value. -/
theorem sum_neg_of_all_neg : ∀ (l : List ℚ), l ≠ [] → (∀ x ∈ l, x < 0) → l.sum < 0
  | [], h, _ => absurd rfl h
  | [x], _, h => by simpa using h x (by simp)
  | x :: y :: l, _, h => by
    rw [List.sum_cons]
    have h1 := h x (by simp)
    have h2 := sum_neg_of_all_neg (y :: l) (by simp)
      fun z hz => h z (List.mem_cons_of_mem _ hz)
    linarith

/-- Every category total is strictly negative: it is a non-empty sum of
negative amounts. -/
theorem catSum_neg {rows : List Row} {c : String} (hc : c ∈ categoriesOf rows) :
    catSum rows c < 0 := by
  obtain ⟨r, hr, hcat⟩ := mem_categoriesOf.1 hc
  show (((expenseRows rows).filter fun x => x.category == some c).map Row.amount).sum < 0
  have hmem : r ∈ (expenseRows rows).filter fun x => x.category == some c :=
    List.mem_filter.2 ⟨hr, by simp [hcat]⟩
  apply sum_neg_of_all_neg
  · exact List.ne_nil_of_mem (List.mem_map.2 ⟨r, hmem, rfl⟩)
  · intro x hx
    obtain ⟨s, hs, rfl⟩ := List.mem_map.1 hx
    exact mem_expenseRows_neg (List.mem_of_mem_filter hs)

/-- Every value of the CategorySeries is strictly negative. -/
theorem category_breakdown_snd_neg {rows : List Row} :
    ∀ p ∈ category_breakdown rows, p.2 < 0 := by
  intro p hp
  rw [category_breakdown, (List.perm_insertionSort _ _).mem_iff] at hp
  obtain ⟨c, hc, rfl⟩ := List.mem_map.1 hp
  exact catSum_neg hc

/-- The top-n ranking keeps at most n entries. -/
theorem topSpending_length (n : Nat) (byCat : List (String × ℚ)) :
    (topSpending n byCat).length ≤ n := by
  rw [topSpending, List.length_map]
  exact List.length_take_le _ _

/-- Every ranked entry is a re-negated absolute value of an input entry. -/
theorem topSpending_mem {n : Nat} {byCat : List (String × ℚ)} {p : String × ℚ}
    (hp : p ∈ topSpending n byCat) : ∃ q ∈ byCat, p = (q.1, -|q.2|) := by
  rw [topSpending] at hp
  obtain ⟨s, hs, rfl⟩ := List.mem_map.1 hp
  have hsS := List.mem_of_mem_take hs
  rw [(List.perm_insertionSort _ _).mem_iff] at hsS
  obtain ⟨q, hq, rfl⟩ := List.mem_map.1 hsS
  exact ⟨q, hq, rfl⟩

/-- Top-spending entries over a CategorySeries are strictly negative. -/
theorem topSpending_snd_neg {rows : List Row} {n : Nat} {p : String × ℚ}
    (hp : p ∈ topSpending n (category_breakdown rows)) : p.2 < 0 := by
  obtain ⟨q, hq, rfl⟩ := topSpending_mem hp
  have hqneg : q.2 < 0 := category_breakdown_snd_neg q hq
  exact neg_lt_zero.2 (abs_pos.2 (ne_of_lt hqneg))

/-- The top-n ranking is sorted by descending absolute value. -/
theorem topSpending_sorted_absDesc (n : Nat) (byCat : List (String × ℚ)) :
    ((topSpending n byCat).map Prod.snd).Pairwise (fun x y => |y| ≤ |x|) := by
  have habs : ∀ s ∈ List.insertionSort valueDesc (byCat.map fun p => (p.1, |p.2|)),
      0 ≤ s.2 := by
    intro s hs
    rw [(List.perm_insertionSort _ _).mem_iff] at hs
    obtain ⟨q, _, rfl⟩ := List.mem_map.1 hs
    exact abs_nonneg _
  have hsorted : (List.insertionSort valueDesc (byCat.map fun p => (p.1, |p.2|))).Pairwise
      valueDesc := List.sorted_insertionSort _ _
  have h2 : (List.insertionSort valueDesc (byCat.map fun p => (p.1, |p.2|))).Pairwise
      (fun a b => |b.2| ≤ |a.2|) := by
    refine hsorted.imp_of_mem fun ha hb hr => ?_
    rw [abs_of_nonneg (habs _ ha), abs_of_nonneg (habs _ hb)]
    exact hr
  have h3 := h2.sublist (List.take_sublist n _)
  rw [topSpending, List.map_map, List.pairwise_map]
  refine h3.imp fun hr => ?_
  simpa [abs_neg] using hr

/-- Rounding to two decimal places is monotone. -/
theorem round2_mono {x y : ℚ} (h : x ≤ y) : round2 x ≤ round2 y := by
  have h1 : (round (x * 100) : ℤ) ≤ round (y * 100) := by
    rw [round_eq, round_eq]
    exact Int.floor_le_floor (by linarith)
  rw [round2, round2]
  exact (div_le_div_right (by norm_num : (0 : ℚ) < 100)).2 (by exact_mod_cast h1)

/-- Rounding fixes zero. -/
theorem round2_zero : round2 0 = 0 := by simp [round2]

/-- Rounding preserves non-positivity. -/
theorem round2_nonpos {x : ℚ} (h : x ≤ 0) : round2 x ≤ 0 :=
  round2_zero ▸ round2_mono h

/-- The rounded top-5 ranking is still sorted by descending absolute value. -/
theorem top5_sorted_absDesc (rows : List Row) :
    ((top5 (category_breakdown rows)).map Prod.snd).Pairwise (fun x y => |y| ≤ |x|) := by
  have h1 : (topSpending 5 (category_breakdown rows)).Pairwise
      (fun a b => |b.2| ≤ |a.2|) :=
    (List.pairwise_map).1 (topSpending_sorted_absDesc 5 _)
  have h2 : (topSpending 5 (category_breakdown rows)).Pairwise
      (fun a b => |round2 b.2| ≤ |round2 a.2|) := by
    refine h1.imp_of_mem ?_
    intro a b ha hb hr
    have hna := topSpending_snd_neg ha
    have hnb := topSpending_snd_neg hb
    rw [abs_of_neg hna, abs_of_neg hnb] at hr
    have hle : round2 a.2 ≤ round2 b.2 := round2_mono (by linarith)
    rw [abs_of_nonpos (round2_nonpos (le_of_lt hnb)),
      abs_of_nonpos (round2_nonpos (le_of_lt hna))]
    linarith
  rw [top5, List.map_map, List.pairwise_map]
  exact h2.imp fun hr => hr

/-- C6: both rankings are bounded (10 and 5 entries), sorted by descending
absolute value, re-negated to the spending sign convention, and empty when
the CategorySeries is empty. -/
theorem C6_topn_bound (rows : List Row) :
    (topSpending 10 (category_breakdown rows)).length ≤ 10 ∧
    (top5 (category_breakdown rows)).length ≤ 5 ∧
    ((topSpending 10 (category_breakdown rows)).map Prod.snd).Pairwise
      (fun x y => |y| ≤ |x|) ∧
    ((top5 (category_breakdown rows)).map Prod.snd).Pairwise (fun x y => |y| ≤ |x|) ∧
    (∀ p ∈ topSpending 10 (category_breakdown rows), p.2 < 0) ∧
    top5 (category_breakdown rows) =
      (topSpending 5 (category_breakdown rows)).map (fun p => (p.1, round2 p.2)) ∧
    (category_breakdown rows = [] →
      topSpending 10 (category_breakdown rows) = [] ∧
      top5 (category_breakdown rows) = []) := by
  refine ⟨topSpending_length 10 _, ?_, topSpending_sorted_absDesc 10 _,
    top5_sorted_absDesc rows, fun p hp => topSpending_snd_neg hp, rfl, fun hb => ?_⟩
  · rw [top5, List.length_map]
    exact topSpending_length 5 _
  · rw [hb]
    exact ⟨rfl, rfl⟩

/-- Witness for C6: the empty CategorySeries of the null-category table
yields empty rankings. -/
theorem C6_topn_bound_witness :
    topSpending 10 (category_breakdown nullCatRows) = [] ∧
    top5 (category_breakdown nullCatRows) = [] :=
  (C6_topn_bound nullCatRows).2.2.2.2.2.2 category_breakdown_nullCat

/-- Rows with a missing category contribute nothing to a filterMap on the
category column. -/
theorem filterMap_category_filter_isSome (l : List Row) :
    (l.filter fun r => r.category.isSome).filterMap Row.category =
      l.filterMap Row.category := by
  induction l with
  | nil => rfl
  | cons r l ih =>
    cases hc : r.category with
    | none => simp [List.filter_cons, List.filterMap_cons, hc, ih]
    | some c => simp [List.filter_cons, List.filterMap_cons, hc, ih]

/-- Two filters commute. -/
theorem filter_comm_rows (p q : Row → Bool) (l : List Row) :
    (l.filter p).filter q = (l.filter q).filter p := by
  rw [List.filter_filter, List.filter_filter]
  exact List.filter_congr fun r _ => Bool.and_comm _ _

/-- Filtering on a specific category subsumes the defined-category filter. -/
theorem filter_cat_filter_isSome (l : List Row) (c : String) :
    ((l.filter fun r => r.category.isSome).filter fun r => r.category == some c) =
      l.filter fun r => r.category == some c := by
  rw [List.filter_filter]
  apply List.filter_congr
  intro r _
  cases hc : r.category <;> simp [hc]

/-- Dropping null-category rows does not change the breakdown keys. -/
theorem categoriesOf_filter_isSome (rows : List Row) :
    categoriesOf (rows.filter fun r => r.category.isSome) = categoriesOf rows := by
  unfold categoriesOf expenseRows
  rw [filter_comm_rows (fun r => r.category.isSome) (fun r => decide (r.amount < 0)) rows,
    filterMap_category_filter_isSome]

/-- Dropping null-category rows does not change any category total. -/
theorem catSum_filter_isSome (rows : List Row) (c : String) :
    catSum (rows.filter fun r => r.category.isSome) c = catSum rows c := by
  unfold catSum expenseRows
  rw [filter_comm_rows (fun r => r.category.isSome) (fun r => decide (r.amount < 0)) rows,
    filter_cat_filter_isSome]

/-- Dropping null-category rows does not change the CategorySeries. -/
theorem category_breakdown_filter_isSome (rows : List Row) :
    category_breakdown (rows.filter fun r => r.category.isSome) =
      category_breakdown rows := by
  unfold category_breakdown
  rw [categoriesOf_filter_isSome]
  congr 1
  apply List.map_congr_left
  intro c _
  rw [catSum_filter_isSome]

/-- C10: a null-category expense row contributes to no CategorySeries entry
(the group-by drops it), yet still contributes to the expense total of its month
in the MonthlySeries. -/
theorem C10_null_category (rows : List Row) (r : Row) (hr : r ∈ rows)
    (hneg : r.amount < 0) (hnull : r.category = none) :
    category_breakdown rows =
      category_breakdown (rows.filter fun x => x.category.isSome) ∧
    ∃ e ∈ monthly_trends rows, e.month = r.monthOf ∧
      r ∈ (rows.filter fun x => x.monthOf == e.month && rowType x == "expense") ∧
      e.expense =
        ((rows.filter fun x => x.monthOf == e.month && rowType x == "expense").map
          Row.amount).sum := by
  refine ⟨(category_breakdown_filter_isSome rows).symm, ?_⟩
  have hm : r.monthOf ∈ monthsOf rows := mem_monthsOf.2 ⟨r, hr, rfl⟩
  refine ⟨{ month := r.monthOf, income := incomeSum rows r.monthOf,
            expense := expenseSum rows r.monthOf,
            net := incomeSum rows r.monthOf + expenseSum rows r.monthOf },
          List.mem_map.2 ⟨r.monthOf, hm, rfl⟩, rfl, ?_, rfl⟩
  apply List.mem_filter.2
  refine ⟨hr, ?_⟩
  have ht : rowType r = "expense" := by
    rw [rowType, if_neg (not_le.2 hneg)]
  simp [ht]

/-- Witness for C10 on the one-row null-category table. -/
theorem C10_null_category_witness :
    category_breakdown nullCatRows =
      category_breakdown (nullCatRows.filter fun x => x.category.isSome) := by
  exact (C10_null_category nullCatRows nullCatRow (by simp [nullCatRows])
    (by norm_num [nullCatRow]) rfl).1

end FinanceDashboard
